import Mathlib

/-!
Shallow embedding of the CSS-to-spell transmutation engine of
`grimoire-css-transmutator` (`src/lib.rs`), together with theorems
settling the specification claims.

Modelling conventions:

* The external tokenizer (`cssparser`) is out of scope; the engine reacts to
  a stream of typed tokens with position-addressable slicing.  We embed the
  stream as the inductive `Toks`: a cons-list of tokens where a bracket-block
  token carries the data the engine may request from the tokenizer (the
  position just after the opening brace, the verbatim inner text, its
  re-tokenization, and the colon/semicolon events seen while scanning the
  block's inner tokens).  Positions are character indices into the current
  level's source text.
* `HashMap` is modelled as an association list with unique keys (the
  `Nodup` hypotheses below); `HashSet String` as `Finset String`.
* `Vec<String>` is a `List String`; pushing appends at the end.
* Rust's `str::trim`, `.replace(" ", "_")` and `remove_last_char` are
  modelled character-wise on `List Char`.
* The external "already a recognized spell" oracle (`Spell::new`) is a pure
  predicate `String → Bool` passed as a parameter, per its boundary contract.
-/

namespace GrimoireTransmute

/-- The result map type: selector name to deduplicated spell set
(`type TransmutedMap = HashMap<String, HashSet<String>>`). -/
abbrev TransmutedMap := List (String × Finset String)

/-- The raw per-class prefix lists
(`raw_classes_spells_map: HashMap<String, Vec<String>>`). -/
abbrev RawMap := List (String × List String)

/-- Character-wise model of Rust `.replace(" ", "_")` for a single-character
pattern: every space becomes an underscore. -/
def replaceSpaces (s : String) : String :=
  (s.toList.map (fun c => if c = ' ' then '_' else c)).asString

/-- Model of Rust `str::trim`: drop whitespace characters from both ends. -/
def trimStr (s : String) : String :=
  (((s.toList.dropWhile Char.isWhitespace).reverse.dropWhile
      Char.isWhitespace).reverse).asString

/-- `remove_last_char` from the source: drops the final character of a
string (identity on the empty string). -/
def remove_last_char (s : String) : String :=
  s.toList.dropLast.asString

/-- Slicing of source text between two positions, as provided by the
tokenizer boundary (`parser.slice`, `parser.slice_from`).  Positions are
character indices. -/
def sliceText (s : String) (a b : Nat) : String :=
  ((s.toList.drop a).take (b - a)).asString

/-- The mutable state threaded through the token loop
(`struct ParserState`). -/
structure ParserState where
  raw_classes_spells_map : RawMap
  current_class : String
  started_media_pos : Option Nat
  focus : List String
  component_and_component_target_map : Finset String
  effects : List String
  class_started : Bool
  focus_delim : String
  effect_started : Bool
  colons : List String
  area : Option String
deriving DecidableEq

/-- `ParserState::default()`: all fields empty/false/none. -/
def initParserState : ParserState :=
  { raw_classes_spells_map := []
    current_class := ""
    started_media_pos := none
    focus := []
    component_and_component_target_map := ∅
    effects := []
    class_started := false
    focus_delim := ""
    effect_started := false
    colons := []
    area := none }

/-- `entry(class).or_default().push(v)` on the raw map: append to the list
of the (unique) entry with the given key, or add a new singleton entry. -/
def pushPrefix : RawMap → String → String → RawMap
  | [], k, v => [(k, [v])]
  | (k', l) :: t, k, v =>
      if k' = k then (k', l ++ [v]) :: t else (k', l) :: pushPrefix t k v

/-- The qualifier string of the accumulated focus:
`focus.join("").trim().replace(" ", "_")`. -/
def focusQualifier (focus : List String) : String :=
  replaceSpaces (trimStr (String.join focus))

/-- The raw spell prefix flushed for the current selector alternative:
empty when the qualifier is empty, otherwise the qualifier wrapped in
braces (the three flush sites of the source share this computation). -/
def baseRawSpell (focus : List String) : String :=
  let focus_str := focusQualifier focus
  if focus_str = "" then "" else "\x7b" ++ focus_str ++ "\x7d"

/-- The spell built from one raw prefix and one canonical declaration:
the declaration alone when the prefix is empty, otherwise the
concatenation `format!("{}{}", prefix, component)`. -/
def mkSpell (pfx comp : String) : String :=
  if pfx = "" then comp else pfx ++ comp

/-- The spell set generated for one class: every raw prefix crossed with
every declaration (the two nested loops of `generate_spells_map`). -/
def spellsFor (pfxs : List String) (comps : Finset String) : Finset String :=
  pfxs.foldl (fun spells p => spells ∪ comps.image (fun c => mkSpell p c)) ∅

/-- `generate_spells_map`: for every class of the raw map, the cross
product of its prefixes with the collected declarations. -/
def generate_spells_map (state : ParserState) : TransmutedMap :=
  state.raw_classes_spells_map.map
    (fun p => (p.1, spellsFor p.2 state.component_and_component_target_map))

/-- Update-or-append step of `merge_maps`: union into the (unique) entry
with the given key when present, otherwise insert the new entry. -/
def insertMerge : TransmutedMap → String → Finset String → TransmutedMap
  | [], k, v => [(k, v)]
  | (k', v') :: t, k, v =>
      if k' = k then (k', v' ∪ v) :: t else (k', v') :: insertMerge t k v

/-- `merge_maps`: fold the second map into the first, unioning value sets
of duplicate keys and inserting fresh keys. -/
def merge_maps (map1 map2 : TransmutedMap) : TransmutedMap :=
  map2.foldl (fun acc kv => insertMerge acc kv.1 kv.2) map1

/-- Lookup in a `TransmutedMap` (the underlying key-to-set map of the
`HashMap`): the value of the first entry with the given key. -/
def mapFind : TransmutedMap → String → Option (Finset String)
  | [], _ => none
  | (k', v) :: t, k => if k' = k then some v else mapFind t k

/-- Lookup in the raw prefix map. -/
def rawFind : RawMap → String → Option (List String)
  | [], _ => none
  | (k', v) :: t, k => if k' = k then some v else rawFind t k

/-- The key list of a `TransmutedMap`. -/
def mapKeys (m : TransmutedMap) : List String := m.map Prod.fst

/-- Inner-token events seen while scanning a rule body for declarations:
only `Colon` and `Semicolon` matter, each recorded with the scan position
just after the token; every other inner token is an inert event. -/
inductive InnerEv where
  | colonAt (p : Nat)
  | semiAt (p : Nat)
  | otherEv
deriving DecidableEq

/-- One step of the declaration-extraction loop.  The state is
`(start_decl_pos, colon_pos, declarations)`.  A colon records its
position; a semicolon slices the property (dropping the trailing colon
left by slicing, then trimming) and the value (dropping the trailing
semicolon, then trimming), joins them as `property=value` with spaces
underscored, inserts the result, and restarts the declaration at the
position after the semicolon. -/
def declStep (body : String) (st : Nat × Nat × Finset String) (ev : InnerEv) :
    Nat × Nat × Finset String :=
  match ev with
  | .colonAt p => (st.1, p, st.2.2)
  | .semiAt p =>
      let comp := trimStr (remove_last_char (sliceText body st.1 st.2.1))
      let target := trimStr (remove_last_char (sliceText body st.2.1 p))
      (p, st.2.1, insert (replaceSpaces (comp ++ "=" ++ target)) st.2.2)
  | .otherEv => st

/-- The declaration-extraction loop over a rule body: fold the inner
events starting both positions at the body start, accumulating into the
current declaration set. -/
def extractDeclarations (body : String) (evs : List InnerEv)
    (init : Finset String) : Finset String :=
  (evs.foldl (declStep body) (0, 0, init)).2.2

/-- The token stream consumed by the engine.  Block tokens carry the data
the engine may request from the tokenizer: for a curly-bracket block, the
position just after the opening brace, the verbatim text from there
through the closing brace, its re-tokenization (used by the recursive
`@media` invocation), and the colon/semicolon events of its inner tokens
(used by declaration extraction).  A square-bracket block and a function
token carry the verbatim slice through their closing bracket.  An
at-keyword carries the position just after it.  Whitespace never appears
(the tokenizer's `next()` skips it); any token the engine ignores is
`otherTok`. -/
inductive Toks where
  | nil
  | ident (s : String) (rest : Toks)
  | atKeyword (s : String) (posAfter : Nat) (rest : Toks)
  | delim (d : String) (rest : Toks)
  | colonTok (rest : Toks)
  | commaTok (rest : Toks)
  | squareBlock (slice : String) (rest : Toks)
  | curly (posAfterOpen : Nat) (bodyText : String) (inner : Toks)
      (bodyEvs : List InnerEv) (rest : Toks)
  | fnTok (name : String) (argSlice : String) (rest : Toks)
  | otherTok (rest : Toks)
deriving DecidableEq

/-- The per-rule state reset performed after every non-media rule body
(lines 361–367 of the source): the raw map, current class, declaration
set, effects, focus, class-started flag and pending combinator are
cleared; `area`, `started_media_pos`, `colons` and `effect_started` are
untouched. -/
def resetRuleState (st : ParserState) : ParserState :=
  { st with
    raw_classes_spells_map := []
    current_class := ""
    component_and_component_target_map := ∅
    effects := []
    focus := []
    class_started := false
    focus_delim := "" }

/-- The token loop of `process_css_into_raw_spells`, one Rust match arm
per token constructor.  `oracle` is the external recognized-spell
predicate, `css` the current recursion level's source text (sliced for
`@media` preludes), `st` the threaded `ParserState`, `acc` the running
result map of this invocation.  Returns the final result map and state. -/
def processToks (oracle : String → Bool) (css : String) :
    Toks → ParserState → TransmutedMap → TransmutedMap × ParserState
  | .nil, st, acc => (acc, st)
  | .ident s rest, st, acc =>
      let st' :=
        if st.class_started ∧ st.current_class = "" then
          { st with current_class := st.current_class ++ s,
                    class_started := false }
        else if st.focus_delim ≠ "" then
          let pfx := if st.focus.isEmpty then "" else "_"
          { st with focus := st.focus ++ [pfx ++ st.focus_delim ++ "_" ++ s],
                    focus_delim := "" }
        else if st.effect_started then
          let cols := if st.colons.length > 2 then [":", ":"] else st.colons
          let focus_item := String.join cols ++ s
          let st1 := { st with focus := st.focus ++ [focus_item],
                               effects := st.effects ++ [s],
                               effect_started := false,
                               colons := [] }
          if st1.current_class = "" then
            { st1 with current_class := st1.current_class ++ focus_item }
          else st1
        else if st.current_class ≠ "" then
          { st with focus := st.focus ++ ["_" ++ s] }
        else
          { st with current_class := st.current_class ++ s }
      processToks oracle css rest st' acc
  | .atKeyword s posAfter rest, st, acc =>
      let st' :=
        if s = "media" then { st with started_media_pos := some posAfter }
        else st
      processToks oracle css rest st' acc
  | .delim d rest, st, acc =>
      let st' :=
        if d = "." then
          let st1 := { st with class_started := true }
          if st1.current_class ≠ "" ∧ st1.focus_delim = "" then
            { st1 with
              raw_classes_spells_map :=
                pushPrefix st1.raw_classes_spells_map st1.current_class
                  (baseRawSpell st1.focus)
              focus := []
              effects := []
              current_class := ""
              focus_delim := "" }
          else st1
        else if d = ":" ∨ d = "::" ∨ d = ">" ∨ d = "+" ∨ d = "~" then
          { st with focus_delim := d }
        else if d = "*" then
          if st.focus.isEmpty then
            let st1 := { st with focus := st.focus ++ [d] }
            if st1.current_class = "" then
              { st1 with current_class := st1.current_class ++ "*" }
            else st1
          else { st with focus_delim := d }
        else st
      processToks oracle css rest st' acc
  | .colonTok rest, st, acc =>
      let st' := { st with effect_started := true,
                           colons := st.colons ++ [":"] }
      processToks oracle css rest st' acc
  | .commaTok rest, st, acc =>
      let st' :=
        if ¬ st.focus.isEmpty then
          let st1 :=
            if st.focus_delim ≠ "" then
              { st with focus := st.focus ++ [st.focus_delim],
                        focus_delim := "" }
            else st
          { st1 with focus := st1.focus ++ [","] }
        else
          { st with
            raw_classes_spells_map :=
              pushPrefix st.raw_classes_spells_map st.current_class
                (baseRawSpell st.focus)
            focus := []
            effects := []
            current_class := ""
            class_started := false
            focus_delim := "" }
      processToks oracle css rest st' acc
  | .squareBlock sl rest, st, acc =>
      let st' := { st with focus := st.focus ++ ["[" ++ sl] }
      processToks oracle css rest st' acc
  | .curly posAfterOpen bodyText inner bodyEvs rest, st, acc =>
      match st.started_media_pos with
      | some mpos =>
          let slice := sliceText css mpos posAfterOpen
          let areaStr := replaceSpaces (trimStr (remove_last_char slice))
          let nested := processToks oracle bodyText inner
            { initParserState with area := some areaStr } []
          let acc' := merge_maps acc nested.1
          processToks oracle css rest
            { st with started_media_pos := none, area := none } acc'
      | none =>
          if oracle st.current_class then
            processToks oracle css rest (resetRuleState st) acc
          else
            let base0 := baseRawSpell st.focus
            let base :=
              match st.area with
              | some a => a ++ "__" ++ base0
              | none => base0
            let st1 := { st with
              raw_classes_spells_map :=
                pushPrefix st.raw_classes_spells_map st.current_class base }
            let st2 := { st1 with
              component_and_component_target_map :=
                extractDeclarations bodyText bodyEvs
                  st1.component_and_component_target_map }
            let acc' := merge_maps acc (generate_spells_map st2)
            processToks oracle css rest (resetRuleState st2) acc'
  | .fnTok name argSlice rest, st, acc =>
      let st' :=
        if st.effect_started then
          let cols := if st.colons.length > 2 then [":", ":"] else st.colons
          { st with
            focus := st.focus ++ [String.join cols ++ name ++ "(" ++ argSlice]
            effects := st.effects ++ [name]
            effect_started := false
            colons := [] }
        else st
      processToks oracle css rest st' acc
  | .otherTok rest, st, acc =>
      processToks oracle css rest st acc

/-- `process_css_into_raw_spells`: run the token loop with the given
state, starting from an empty result map; returns the result map together
with the final state (the Rust function mutates the state in place). -/
def process_css_into_raw_spells (oracle : String → Bool) (css : String)
    (toks : Toks) (st : ParserState) : TransmutedMap × ParserState :=
  processToks oracle css toks st []

/-- The engine's error kind relevant here (`GrimoireCssError::InvalidInput`). -/
inductive TransmuteError where
  | invalidInput (msg : String)
deriving DecidableEq

/-- `transmute_from_content`: run the engine on the content with a default
state; fail with `InvalidInput` when the produced map is empty, otherwise
assemble the output by keeping exactly the entries with a non-empty name.
(JSON rendering, the oneliner option and timing are external output
concerns and are not modelled.) -/
def transmute_from_content (oracle : String → Bool) (css : String)
    (toks : Toks) : Except TransmuteError (List (String × Finset String)) :=
  let processed := (process_css_into_raw_spells oracle css toks initParserState).1
  if processed.isEmpty then
    .error (.invalidInput "There is nothing to transmute.")
  else
    .ok (processed.filter (fun p => ¬ p.1 = ""))

/-- The oracle that recognizes nothing as an existing spell (every selector
is legacy CSS still to be transmuted). -/
def noSpellOracle : String → Bool := fun _ => false

/-- Combination of two optional spell sets, describing the effect of
`merge_maps` on one key: union when both present, the present one
otherwise. -/
def combineOpt : Option (Finset String) → Option (Finset String) →
    Option (Finset String)
  | some a, some b => some (a ∪ b)
  | some a, none => some a
  | none, b => b

/-! ### Concrete token streams

Each stream below is the tokenization `cssparser` produces for the CSS
text of a claim (whitespace tokens are skipped by the tokenizer's
`next()`; positions are character indices; a block token carries the
verbatim text from just after its opening bracket through its closing
bracket). -/

/-- Rule body text of `{ color: red; }`: the slice from just after the
opening brace through the closing brace. -/
def bodyColorRed : String := " color: red; \x7d"

/-- Colon/semicolon events of the body `{ color: red; }`: the colon ends
at position 7, the semicolon at position 12 (the two identifiers are
inert events). -/
def bodyColorRedEvs : List InnerEv :=
  [.otherEv, .colonAt 7, .otherEv, .semiAt 12]

/-- Re-tokenization of ` color: red; \x7d` (the trailing stray close
brace lexes as a token the engine ignores). -/
def bodyColorRedToks : Toks :=
  .ident "color" (.colonTok (.ident "red" (.otherTok (.otherTok .nil))))

/-- Tokens of `.button \x7b color: red; \x7d` (claim: basic rule). -/
def toksButton : Toks :=
  .delim "." (.ident "button"
    (.curly 9 bodyColorRed bodyColorRedToks bodyColorRedEvs .nil))

/-- Tokens of `.a:hover, .b \x7b color: red; \x7d` (claim: comma
alternatives). -/
def toksCommaAlt : Toks :=
  .delim "." (.ident "a" (.colonTok (.ident "hover" (.commaTok
    (.delim "." (.ident "b"
      (.curly 14 bodyColorRed bodyColorRedToks bodyColorRedEvs .nil)))))))

/-- Tokens of `.a \x7b \x7d` (claim: empty rule body). -/
def toksEmptyBody : Toks :=
  .delim "." (.ident "a" (.curly 4 " \x7d" (.otherTok .nil) [.otherEv] .nil))

/-- Tokens of `.a` alone: a selector never followed by a rule body. -/
def toksNoBody : Toks := .delim "." (.ident "a" .nil)

/-- Rule body text of `{ color: blue; }`. -/
def bodyColorBlue : String := " color: blue; \x7d"

/-- Inner text of the `@media` block of
`@media (min-width: 700px) \x7b .a \x7b color: blue; \x7d \x7d`: the slice
from just after the outer opening brace through the outer closing brace. -/
def mediaBodyBlue : String := " .a \x7b color: blue; \x7d \x7d"

/-- Re-tokenization of the `@media` block's inner text for the
media-nesting claim. -/
def mediaBodyBlueToks : Toks :=
  .delim "." (.ident "a"
    (.curly 5 bodyColorBlue
      (.ident "color" (.colonTok (.ident "blue" (.otherTok (.otherTok .nil)))))
      [.otherEv, .colonAt 7, .otherEv, .semiAt 13]
      (.otherTok .nil)))

/-- Top-level tokens of
`@media (min-width: 700px) \x7b .a \x7b color: blue; \x7d \x7d`: the
at-keyword ends at position 6, the parenthesis block is ignored, the
outer curly block opens with its brace ending at position 27. -/
def toksMediaBlue : Toks :=
  .atKeyword "media" 6 (.otherTok
    (.curly 27 mediaBodyBlue mediaBodyBlueToks
      [.otherEv, .otherEv, .otherEv, .otherEv] .nil))

/-- Inner text of the `@media` block of
`@media (min-width: 700px) \x7b .x .y \x7b color: red; \x7d \x7d`. -/
def mediaBodyXY : String := " .x .y \x7b color: red; \x7d \x7d"

/-- Re-tokenization of the `@media` block's inner text for the
area-wrapping claim: a descendant selector `.x .y` with one rule body. -/
def mediaBodyXYToks : Toks :=
  .delim "." (.ident "x" (.delim "." (.ident "y"
    (.curly 8 bodyColorRed bodyColorRedToks bodyColorRedEvs
      (.otherTok .nil)))))

/-- Top-level tokens of
`@media (min-width: 700px) \x7b .x .y \x7b color: red; \x7d \x7d`. -/
def toksMediaXY : Toks :=
  .atKeyword "media" 6 (.otherTok
    (.curly 27 mediaBodyXY mediaBodyXYToks
      [.otherEv, .otherEv, .otherEv, .otherEv, .otherEv] .nil))

/-- Tokens of `.a.b \x7b color: red; \x7d` (compound selector). -/
def toksCompound : Toks :=
  .delim "." (.ident "a" (.delim "." (.ident "b"
    (.curly 6 bodyColorRed bodyColorRedToks bodyColorRedEvs .nil))))

/-- Tokens of `.a .b \x7b color: red; \x7d` (descendant selector): the
same token sequence as the compound form — the tokenizer skips the
whitespace between the two class selectors — with the brace one position
further right. -/
def toksDescendant : Toks :=
  .delim "." (.ident "a" (.delim "." (.ident "b"
    (.curly 7 bodyColorRed bodyColorRedToks bodyColorRedEvs .nil))))

/-- A sample state exercising the oracle-skip reset: every per-rule field
is populated, a media area is inherited, and no media prelude is
pending. -/
def skipSampleState : ParserState :=
  { raw_classes_spells_map := [("q", ["\x7b:focus\x7d"])]
    current_class := "button"
    started_media_pos := none
    focus := ["_x"]
    component_and_component_target_map := {"color=red"}
    effects := ["hover"]
    class_started := true
    focus_delim := ">"
    effect_started := true
    colons := [":"]
    area := some "(min-width:_700px)" }

/-- A sample state for the cartesian-product property of the spell
generator: one class with two raw prefixes and two collected
declarations. -/
def cartesianSampleState : ParserState :=
  { initParserState with
    raw_classes_spells_map := [("class1", ["\x7b:hover\x7d", ""])]
    component_and_component_target_map := {"color=red", "width=10px"} }

/-- Sample maps for the merge laws. -/
def mergeSampleA : TransmutedMap := [("a", {"s1"})]

/-- Second sample map for the merge laws: one key shared with the first
sample, one fresh. -/
def mergeSampleB : TransmutedMap := [("a", {"s2"}), ("b", {"s3"})]

/-- Third sample map for the merge laws. -/
def mergeSampleC : TransmutedMap := [("c", {"s4"})]

/-- Source text `.button \x7b color: red; \x7d`. -/
def cssButton : String := ".button \x7b color: red; \x7d"

/-- Source text `.a:hover, .b \x7b color: red; \x7d`. -/
def cssCommaAlt : String := ".a:hover, .b \x7b color: red; \x7d"

/-- Source text `.a \x7b \x7d`. -/
def cssEmptyBody : String := ".a \x7b \x7d"

/-- Source text `.a` (a selector with no rule body). -/
def cssNoBody : String := ".a"

/-- Source text of the media-nesting example. -/
def cssMediaBlue : String :=
  "@media (min-width: 700px) \x7b .a \x7b color: blue; \x7d \x7d"

/-- Source text of the media example with a descendant selector. -/
def cssMediaXY : String :=
  "@media (min-width: 700px) \x7b .x .y \x7b color: red; \x7d \x7d"

/-- Source text `.a.b \x7b color: red; \x7d`. -/
def cssCompound : String := ".a.b \x7b color: red; \x7d"

/-- Source text `.a .b \x7b color: red; \x7d`. -/
def cssDescendant : String := ".a .b \x7b color: red; \x7d"

/-! ## Lemmas on the map operations -/

theorem combineOpt_none_right (a : Option (Finset String)) :
    combineOpt a none = a := by
  cases a <;> rfl

theorem combineOpt_comm (a b : Option (Finset String)) :
    combineOpt a b = combineOpt b a := by
  cases a <;> cases b <;> simp [combineOpt, Finset.union_comm]

theorem combineOpt_assoc (a b c : Option (Finset String)) :
    combineOpt (combineOpt a b) c = combineOpt a (combineOpt b c) := by
  cases a <;> cases b <;> cases c <;> simp [combineOpt, Finset.union_assoc]

theorem combineOpt_self (a : Option (Finset String)) :
    combineOpt a a = a := by
  cases a <;> simp [combineOpt]

theorem mapFind_eq_none_iff (m : TransmutedMap) (k : String) :
    mapFind m k = none ↔ k ∉ mapKeys m := by
  induction m with
  | nil => simp [mapFind, mapKeys]
  | cons a t ih =>
      obtain ⟨ka, va⟩ := a
      by_cases h : ka = k
      · subst h; simp [mapFind, mapKeys]
      · simp [mapFind, mapKeys, h, ih, Ne.symm h]

theorem insertMerge_find (m : TransmutedMap) (k : String) (v : Finset String)
    (k' : String) :
    mapFind (insertMerge m k v) k' =
      if k = k' then combineOpt (mapFind m k') (some v) else mapFind m k' := by
  induction m with
  | nil => by_cases h : k = k' <;> simp [insertMerge, mapFind, combineOpt, h]
  | cons a t ih =>
      obtain ⟨ka, va⟩ := a
      by_cases h1 : ka = k
      · subst h1
        by_cases h2 : ka = k'
        · subst h2; simp [insertMerge, mapFind, combineOpt]
        · simp [insertMerge, mapFind, combineOpt, h2]
      · by_cases h2 : ka = k'
        · subst h2
          simp [insertMerge, mapFind, h1, Ne.symm h1]
        · simp [insertMerge, mapFind, h1, h2, ih]

theorem insertMerge_keys (m : TransmutedMap) (k : String) (v : Finset String) :
    mapKeys (insertMerge m k v) =
      if mapFind m k = none then mapKeys m ++ [k] else mapKeys m := by
  induction m with
  | nil => simp [insertMerge, mapFind, mapKeys]
  | cons a t ih =>
      obtain ⟨ka, va⟩ := a
      by_cases h : ka = k
      · subst h; simp [insertMerge, mapFind, mapKeys]
      · have e1 : insertMerge ((ka, va) :: t) k v
            = (ka, va) :: insertMerge t k v := by simp [insertMerge, h]
        have e2 : mapFind ((ka, va) :: t) k = mapFind t k := by
          simp [mapFind, h]
        rw [e1, e2,
          show mapKeys ((ka, va) :: insertMerge t k v)
            = ka :: mapKeys (insertMerge t k v) from rfl, ih,
          show mapKeys ((ka, va) :: t) = ka :: mapKeys t from rfl]
        by_cases h2 : mapFind t k = none <;> simp [h2]

theorem nodup_insertMerge (m : TransmutedMap) (k : String) (v : Finset String)
    (h : (mapKeys m).Nodup) : (mapKeys (insertMerge m k v)).Nodup := by
  rw [insertMerge_keys]
  by_cases h0 : mapFind m k = none
  · rw [if_pos h0]
    rw [List.nodup_append]
    refine ⟨h, List.nodup_singleton k, ?_⟩
    intro a ha hb
    rw [List.mem_singleton] at hb
    subst hb
    exact (mapFind_eq_none_iff m a).mp h0 ha
  · rw [if_neg h0]; exact h

theorem merge_maps_nil (m : TransmutedMap) : merge_maps m [] = m := rfl

theorem merge_maps_cons (m : TransmutedMap) (kv : String × Finset String)
    (t : TransmutedMap) :
    merge_maps m (kv :: t) = merge_maps (insertMerge m kv.1 kv.2) t := rfl

theorem nodup_merge_maps (m1 m2 : TransmutedMap)
    (h : (mapKeys m1).Nodup) : (mapKeys (merge_maps m1 m2)).Nodup := by
  induction m2 generalizing m1 with
  | nil => exact h
  | cons a t ih =>
      rw [merge_maps_cons]
      exact ih _ (nodup_insertMerge _ _ _ h)

theorem merge_maps_find (m1 m2 : TransmutedMap) (k : String)
    (h2 : (mapKeys m2).Nodup) :
    mapFind (merge_maps m1 m2) k = combineOpt (mapFind m1 k) (mapFind m2 k) := by
  induction m2 generalizing m1 with
  | nil => simp [merge_maps_nil, mapFind, combineOpt_none_right]
  | cons a t ih =>
      obtain ⟨ka, va⟩ := a
      rw [show mapKeys ((ka, va) :: t) = ka :: mapKeys t from rfl] at h2
      obtain ⟨hka, hnd⟩ := List.nodup_cons.mp h2
      rw [merge_maps_cons, ih _ hnd, insertMerge_find]
      by_cases hk : ka = k
      · subst hk
        have hnone : mapFind t ka = none := (mapFind_eq_none_iff t ka).mpr hka
        simp [mapFind, hnone, combineOpt_none_right]
      · simp [mapFind, hk]

/-! ## Lemmas on the spell generator -/

theorem mkSpell_eq_append (p d : String) : mkSpell p d = p ++ d := by
  by_cases h : p = ""
  · subst h; rfl
  · simp [mkSpell, h]

theorem mem_spellsFor (pfxs : List String) (comps : Finset String)
    (s : String) :
    s ∈ spellsFor pfxs comps ↔ ∃ p ∈ pfxs, ∃ d ∈ comps, s = p ++ d := by
  have aux : ∀ (l : List String) (acc : Finset String),
      s ∈ l.foldl (fun spells p => spells ∪ comps.image (fun c => mkSpell p c))
          acc ↔
        s ∈ acc ∨ ∃ p ∈ l, ∃ d ∈ comps, s = mkSpell p d := by
    intro l
    induction l with
    | nil => intro acc; simp
    | cons p t ih =>
        intro acc
        rw [List.foldl_cons, ih]
        constructor
        · rintro (h | h)
          · rcases Finset.mem_union.mp h with h' | h'
            · exact Or.inl h'
            · obtain ⟨d, hd, hds⟩ := Finset.mem_image.mp h'
              exact Or.inr ⟨p, List.mem_cons_self p t, d, hd, hds.symm⟩
          · obtain ⟨p', hp', d, hd, hds⟩ := h
            exact Or.inr ⟨p', List.mem_cons_of_mem p hp', d, hd, hds⟩
        · rintro (h | h)
          · exact Or.inl (Finset.mem_union_left _ h)
          · obtain ⟨p', hp', d, hd, hds⟩ := h
            rcases List.mem_cons.mp hp' with h' | h'
            · subst h'
              exact Or.inl (Finset.mem_union_right _
                (Finset.mem_image.mpr ⟨d, hd, hds.symm⟩))
            · exact Or.inr ⟨p', h', d, hd, hds⟩
  rw [spellsFor, aux]
  simp [mkSpell_eq_append]

theorem generate_map_find (rm : RawMap) (D : Finset String) (c : String)
    (P : List String) (h : rawFind rm c = some P) :
    mapFind (rm.map (fun p => (p.1, spellsFor p.2 D))) c
      = some (spellsFor P D) := by
  induction rm with
  | nil => simp [rawFind] at h
  | cons a t ih =>
      obtain ⟨ka, va⟩ := a
      by_cases hk : ka = c
      · subst hk
        simp [rawFind] at h
        simp [mapFind, h]
      · simp [rawFind, hk] at h
        simp [mapFind, hk, ih h]

/-! ## Claims -/

/-- C5: Cartesian completeness of the Spell Generator.  For every class
whose raw-prefix list is `P` and whose rule-body declaration set is `D`,
the generated spell set for that class equals the deduplicated set of all
`p ++ d` with `p ∈ P` and `d ∈ D` (concatenation with no separator; an
empty prefix contributes the declaration itself). -/
theorem generate_spells_map_cartesian (st : ParserState) (c : String)
    (P : List String) (h : rawFind st.raw_classes_spells_map c = some P) :
    ∃ S, mapFind (generate_spells_map st) c = some S ∧
      ∀ s, s ∈ S ↔
        ∃ p ∈ P, ∃ d ∈ st.component_and_component_target_map, s = p ++ d := by
  refine ⟨spellsFor P st.component_and_component_target_map, ?_, ?_⟩
  · exact generate_map_find _ _ _ _ h
  · intro s; exact mem_spellsFor _ _ _

/-- Witness for C5 at a concrete state: one class with two prefixes and
two declarations. -/
theorem generate_spells_map_cartesian_witness :
    ∃ S, mapFind (generate_spells_map cartesianSampleState) "class1" = some S ∧
      ∀ s, s ∈ S ↔ ∃ p ∈ ["\x7b:hover\x7d", ""],
        ∃ d ∈ ({"color=red", "width=10px"} : Finset String), s = p ++ d :=
  generate_spells_map_cartesian cartesianSampleState "class1"
    ["\x7b:hover\x7d", ""] (by decide)

/-- C8: the Map Merger satisfies the merge laws as equations on the
underlying key-to-set maps — commutativity, idempotence, associativity —
and for every key present in both maps the value sets are unioned while
keys present in only one map are kept.  The `Nodup` hypotheses express
the `HashMap` invariant of unique keys. -/
theorem merge_maps_laws (A B C : TransmutedMap)
    (hA : (mapKeys A).Nodup) (hB : (mapKeys B).Nodup)
    (hC : (mapKeys C).Nodup) :
    (∀ k, mapFind (merge_maps A B) k = mapFind (merge_maps B A) k) ∧
    (∀ k, mapFind (merge_maps A A) k = mapFind A k) ∧
    (∀ k, mapFind (merge_maps (merge_maps A B) C) k
        = mapFind (merge_maps A (merge_maps B C)) k) ∧
    (∀ k a b, mapFind A k = some a → mapFind B k = some b →
        mapFind (merge_maps A B) k = some (a ∪ b)) ∧
    (∀ k a, mapFind A k = some a → mapFind B k = none →
        mapFind (merge_maps A B) k = some a) ∧
    (∀ k b, mapFind A k = none → mapFind B k = some b →
        mapFind (merge_maps A B) k = some b) := by
  refine ⟨?_, ?_, ?_, ?_, ?_, ?_⟩
  · intro k
    rw [merge_maps_find _ _ _ hB, merge_maps_find _ _ _ hA, combineOpt_comm]
  · intro k
    rw [merge_maps_find _ _ _ hA, combineOpt_self]
  · intro k
    rw [merge_maps_find _ _ _ hC, merge_maps_find _ _ _ hB,
      merge_maps_find _ _ _ (nodup_merge_maps B C hB),
      merge_maps_find _ _ _ hC, combineOpt_assoc]
  · intro k a b ha hb
    rw [merge_maps_find _ _ _ hB, ha, hb]; rfl
  · intro k a ha hb
    rw [merge_maps_find _ _ _ hB, ha, hb]; rfl
  · intro k b ha hb
    rw [merge_maps_find _ _ _ hB, ha, hb]; rfl

/-- Witness for C8 at concrete maps sharing the key `a`. -/
theorem merge_maps_laws_witness :
    mapFind (merge_maps mergeSampleA mergeSampleB) "a"
      = mapFind (merge_maps mergeSampleB mergeSampleA) "a" :=
  (merge_maps_laws mergeSampleA mergeSampleB mergeSampleC
    (by decide) (by decide) (by decide)).1 "a"

/-- C7: when the external recognized-spell oracle reports true for the
current class name at a rule body (and no media prelude is pending), the
rule body is discarded without being interpreted — its inner events and
text are irrelevant — no entry is added to the result map by that rule,
no error is raised, and the per-rule state fields are reset for the next
rule while `area`, `started_media_pos`, `colons` and `effect_started`
are preserved. -/
theorem oracle_skip_discards_rule (oracle : String → Bool) (css : String)
    (st : ParserState) (acc : TransmutedMap) (pAO : Nat) (bodyText : String)
    (inner : Toks) (evs : List InnerEv)
    (hm : st.started_media_pos = none)
    (ho : oracle st.current_class = true) :
    processToks oracle css (.curly pAO bodyText inner evs .nil) st acc
      = (acc, { st with
          raw_classes_spells_map := []
          current_class := ""
          component_and_component_target_map := ∅
          effects := []
          focus := []
          class_started := false
          focus_delim := "" }) := by
  simp [processToks, hm, ho, resetRuleState]

/-- Witness for C7: a fully populated per-rule state with an inherited
area; the accumulator and the preserved fields survive untouched. -/
theorem oracle_skip_discards_rule_witness :
    processToks (fun _ => true) "" (.curly 0 " \x7d" .nil [] .nil)
        skipSampleState [("m", {"s"})]
      = ([("m", {"s"})], { skipSampleState with
          raw_classes_spells_map := []
          current_class := ""
          component_and_component_target_map := ∅
          effects := []
          focus := []
          class_started := false
          focus_delim := "" }) :=
  oracle_skip_discards_rule (fun _ => true) "" skipSampleState
    [("m", {"s"})] 0 " \x7d" .nil [] rfl rfl

/-- C9: for `.button \x7b color: red; \x7d` with the oracle reporting
false, the engine produces exactly one entry, named `button`, with spell
set `color=red`; the property is the slice before the colon and the value
the slice before the semicolon, each fixed by dropping one trailing stray
character, trimmed, space-underscored, and joined with `=`. -/
theorem basic_rule_result (oracle : String → Bool)
    (h : ∀ s, oracle s = false) :
    (process_css_into_raw_spells oracle cssButton toksButton
        initParserState).1 = [("button", {"color=red"})]
    ∧ extractDeclarations bodyColorRed bodyColorRedEvs ∅ = {"color=red"}
    ∧ trimStr (remove_last_char (sliceText bodyColorRed 0 7)) = "color"
    ∧ trimStr (remove_last_char (sliceText bodyColorRed 7 12)) = "red" := by
  have e : oracle = noSpellOracle := funext h
  subst e
  exact ⟨by decide, by decide, by decide, by decide⟩

/-- Witness for C9 with the constantly-false oracle. -/
theorem basic_rule_result_witness :
    (process_css_into_raw_spells noSpellOracle cssButton toksButton
        initParserState).1 = [("button", {"color=red"})] :=
  (basic_rule_result noSpellOracle (fun _ => rfl)).1

/-- C10: the Spell Generator distributes the completed rule's
declarations over every class accumulated since the last per-rule reset:
for the compound selector `.a.b \x7b color: red; \x7d` and the descendant
form `.a .b \x7b color: red; \x7d` both `a` and `b` receive the spell
`color=red`. -/
theorem compound_selector_distribution (oracle : String → Bool)
    (h : ∀ s, oracle s = false) :
    (process_css_into_raw_spells oracle cssCompound toksCompound
        initParserState).1 = [("a", {"color=red"}), ("b", {"color=red"})]
    ∧ (process_css_into_raw_spells oracle cssDescendant toksDescendant
        initParserState).1 = [("a", {"color=red"}), ("b", {"color=red"})] := by
  have e : oracle = noSpellOracle := funext h
  subst e
  exact ⟨by decide, by decide⟩

/-- Witness for C10 with the constantly-false oracle. -/
theorem compound_selector_distribution_witness :
    (process_css_into_raw_spells noSpellOracle cssCompound toksCompound
        initParserState).1 = [("a", {"color=red"}), ("b", {"color=red"})] :=
  (compound_selector_distribution noSpellOracle (fun _ => rfl)).1

/-- C6: for `@media (min-width: 700px) \x7b .a \x7b color: blue; \x7d \x7d`
the engine produces the single entry `a` whose spell is the area label
`(min-width:_700px)` followed by `__` and the empty-qualifier declaration
`color=blue`; the area label is the prelude slice from the recorded
position to just after the block's opening brace, with the trailing stray
character dropped, trimmed, and spaces underscored. -/
theorem media_nesting_result (oracle : String → Bool)
    (h : ∀ s, oracle s = false) :
    (process_css_into_raw_spells oracle cssMediaBlue toksMediaBlue
        initParserState).1 = [("a", {"(min-width:_700px)__color=blue"})]
    ∧ replaceSpaces (trimStr (remove_last_char (sliceText cssMediaBlue 6 27)))
        = "(min-width:_700px)"
    ∧ "(min-width:_700px)__color=blue"
        = "(min-width:_700px)__" ++ "color=blue" := by
  have e : oracle = noSpellOracle := funext h
  subst e
  exact ⟨by decide, by decide, by decide⟩

/-- Witness for C6 with the constantly-false oracle. -/
theorem media_nesting_result_witness :
    (process_css_into_raw_spells noSpellOracle cssMediaBlue toksMediaBlue
        initParserState).1 = [("a", {"(min-width:_700px)__color=blue"})] :=
  (media_nesting_result noSpellOracle (fun _ => rfl)).1

/-- C1 counterexample: for `.a:hover, .b \x7b color: red; \x7d` the class
`a` receives the spell with the comma folded into the qualifier,
`\x7b:hover,\x7dcolor=red`, not the claimed `\x7b:hover\x7dcolor=red`:
the Comma token with a non-empty focus does not flush — it appends a
comma marker to the focus instead. -/
theorem comma_qualifier_counterexample :
    mapFind (process_css_into_raw_spells noSpellOracle cssCommaAlt
        toksCommaAlt initParserState).1 "a"
      = some {"\x7b:hover,\x7dcolor=red"}
    ∧ mapFind (process_css_into_raw_spells noSpellOracle cssCommaAlt
        toksCommaAlt initParserState).1 "a"
      ≠ some {"\x7b:hover\x7dcolor=red"} := by
  exact ⟨by decide, by decide⟩

/-- C1 (amended): for `.a:hover, .b \x7b color: red; \x7d` the engine
produces two entries — `a` with spell set `\x7b:hover,\x7dcolor=red` (the
comma marker is folded into the qualifier) and `b` with `color=red`.  In
general a Comma token flushes only when the focus is empty: it then
records an empty-qualifier raw prefix for the accumulated class name and
clears focus, effects, class name, class-start flag and pending
combinator; a Comma with non-empty focus appends the pending combinator
(if any) followed by a comma marker to the focus and flushes nothing. -/
theorem comma_alternatives_amended :
    (∀ oracle : String → Bool, (∀ s, oracle s = false) →
      (process_css_into_raw_spells oracle cssCommaAlt toksCommaAlt
          initParserState).1
        = [("a", {"\x7b:hover,\x7dcolor=red"}), ("b", {"color=red"})])
    ∧ (∀ (oracle : String → Bool) (css : String) (st : ParserState)
        (acc : TransmutedMap), st.focus = [] →
        processToks oracle css (.commaTok .nil) st acc
          = (acc, { st with
              raw_classes_spells_map :=
                pushPrefix st.raw_classes_spells_map st.current_class ""
              focus := []
              effects := []
              current_class := ""
              class_started := false
              focus_delim := "" }))
    ∧ (∀ (oracle : String → Bool) (css : String) (st : ParserState)
        (acc : TransmutedMap), st.focus ≠ [] →
        processToks oracle css (.commaTok .nil) st acc
          = (acc, { st with
              focus := (if st.focus_delim ≠ ""
                then st.focus ++ [st.focus_delim] else st.focus) ++ [","]
              focus_delim := "" })) := by
  refine ⟨?_, ?_, ?_⟩
  · intro oracle h
    have e : oracle = noSpellOracle := funext h
    subst e
    decide
  · intro oracle css st acc hf
    obtain ⟨raw, cc, smp, foc, comps, effs, cs, fd, es, cols, ar⟩ := st
    simp only at hf
    subst hf
    rfl
  · intro oracle css st acc hf
    obtain ⟨raw, cc, smp, foc, comps, effs, cs, fd, es, cols, ar⟩ := st
    simp only at hf
    obtain - | ⟨f0, foc'⟩ := foc
    · exact absurd rfl hf
    · by_cases hd : fd = ""
      · subst hd; rfl
      · simp [processToks, hd]

/-- Witness for the amended C1 with the constantly-false oracle. -/
theorem comma_alternatives_amended_witness :
    (process_css_into_raw_spells noSpellOracle cssCommaAlt toksCommaAlt
        initParserState).1
      = [("a", {"\x7b:hover,\x7dcolor=red"}), ("b", {"color=red"})] :=
  comma_alternatives_amended.1 noSpellOracle (fun _ => rfl)

/-- C2 counterexample: inside
`@media (min-width: 700px) \x7b .x .y \x7b color: red; \x7d \x7d` the
class `x` — flushed at the second class-start delimiter, not at the rule
body — receives the spell `color=red`, which does not carry the area
prefix `(min-width:_700px)__`. -/
theorem area_wrap_counterexample :
    mapFind (process_css_into_raw_spells noSpellOracle cssMediaXY
        toksMediaXY initParserState).1 "x" = some {"color=red"}
    ∧ List.isPrefixOf "(min-width:_700px)__".toList "color=red".toList
        = false := by
  exact ⟨by decide, by decide⟩

/-- C2 (amended): when the area label is set at a recursion level, only
the raw prefix flushed at the rule body's curly-bracket block is wrapped
as area`__`qualifier; prefixes flushed earlier at a class-start delimiter
or at a comma are recorded without the area wrap.  Stated here in full
generality over states whose `area` is set: the class-start flush pushes
the bare qualifier, the comma flush pushes the bare empty qualifier, and
the rule-body flush pushes the area-wrapped qualifier; hence in
`@media (min-width: 700px) \x7b .x .y \x7b color: red; \x7d \x7d` the
entry `x` gets the bare `color=red` while `y` gets
`(min-width:_700px)__color=red`. -/
theorem area_wrap_amended :
    (∀ oracle : String → Bool, (∀ s, oracle s = false) →
      (process_css_into_raw_spells oracle cssMediaXY toksMediaXY
          initParserState).1
        = [("x", {"color=red"}), ("y", {"(min-width:_700px)__color=red"})])
    ∧ (∀ (oracle : String → Bool) (css : String) (st : ParserState)
        (acc : TransmutedMap) (a : String), st.area = some a →
        st.current_class ≠ "" → st.focus_delim = "" →
        processToks oracle css (.delim "." .nil) st acc
          = (acc, { st with
              raw_classes_spells_map :=
                pushPrefix st.raw_classes_spells_map st.current_class
                  (baseRawSpell st.focus)
              focus := []
              effects := []
              current_class := ""
              focus_delim := ""
              class_started := true }))
    ∧ (∀ (oracle : String → Bool) (css : String) (st : ParserState)
        (acc : TransmutedMap) (a : String), st.area = some a →
        st.focus = [] →
        processToks oracle css (.commaTok .nil) st acc
          = (acc, { st with
              raw_classes_spells_map :=
                pushPrefix st.raw_classes_spells_map st.current_class ""
              focus := []
              effects := []
              current_class := ""
              class_started := false
              focus_delim := "" }))
    ∧ (∀ (oracle : String → Bool) (css : String) (st : ParserState)
        (acc : TransmutedMap) (pAO : Nat) (bodyText : String) (inner : Toks)
        (evs : List InnerEv) (a : String), st.area = some a →
        st.started_media_pos = none → oracle st.current_class = false →
        processToks oracle css (.curly pAO bodyText inner evs .nil) st acc
          = (merge_maps acc (generate_spells_map { st with
              raw_classes_spells_map :=
                pushPrefix st.raw_classes_spells_map st.current_class
                  (a ++ "__" ++ baseRawSpell st.focus)
              component_and_component_target_map :=
                extractDeclarations bodyText evs
                  st.component_and_component_target_map }),
             { st with
               raw_classes_spells_map := []
               current_class := ""
               component_and_component_target_map := ∅
               effects := []
               focus := []
               class_started := false
               focus_delim := "" })) := by
  refine ⟨?_, ?_, ?_, ?_⟩
  · intro oracle h
    have e : oracle = noSpellOracle := funext h
    subst e
    decide
  · intro oracle css st acc a ha hcc hfd
    obtain ⟨raw, cc, smp, foc, comps, effs, cs, fd, es, cols, ar⟩ := st
    simp only at hcc hfd
    subst hfd
    simp [processToks, hcc]
  · intro oracle css st acc a ha hf
    obtain ⟨raw, cc, smp, foc, comps, effs, cs, fd, es, cols, ar⟩ := st
    simp only at hf
    subst hf
    rfl
  · intro oracle css st acc pAO bodyText inner evs a ha hm ho
    simp [processToks, hm, ho, ha, resetRuleState]

/-- Witness for the amended C2 with the constantly-false oracle. -/
theorem area_wrap_amended_witness :
    (process_css_into_raw_spells noSpellOracle cssMediaXY toksMediaXY
        initParserState).1
      = [("x", {"color=red"}), ("y", {"(min-width:_700px)__color=red"})] :=
  area_wrap_amended.1 noSpellOracle (fun _ => rfl)

/-- C3 counterexample: for `.a \x7b \x7d` — a rule body contributing zero
declarations — the selector `a` does appear as a key of the final map,
mapped to the empty spell set. -/
theorem empty_rule_body_counterexample :
    (process_css_into_raw_spells noSpellOracle cssEmptyBody toksEmptyBody
        initParserState).1 = [("a", ∅)]
    ∧ mapFind (process_css_into_raw_spells noSpellOracle cssEmptyBody
        toksEmptyBody initParserState).1 "a" = some ∅ := by
  exact ⟨by decide, by decide⟩

/-- C3 (amended): a selector whose rule body contributed zero
declarations appears in the final map mapped to the empty spell set
(`.a \x7b \x7d` yields exactly the entry `a` with no spells), and the
entry survives into the assembled output — only entries with an empty
name are dropped there. -/
theorem empty_rule_body_amended (oracle : String → Bool)
    (h : ∀ s, oracle s = false) :
    (process_css_into_raw_spells oracle cssEmptyBody toksEmptyBody
        initParserState).1 = [("a", ∅)]
    ∧ transmute_from_content oracle cssEmptyBody toksEmptyBody
        = .ok [("a", ∅)] := by
  have e : oracle = noSpellOracle := funext h
  subst e
  exact ⟨by decide, rfl⟩

/-- Witness for the amended C3 with the constantly-false oracle. -/
theorem empty_rule_body_amended_witness :
    (process_css_into_raw_spells noSpellOracle cssEmptyBody toksEmptyBody
        initParserState).1 = [("a", ∅)] :=
  (empty_rule_body_amended noSpellOracle (fun _ => rfl)).1

/-- C4 counterexample: the input `.a \x7b \x7d` produces zero non-empty
class names with declarations — its single output entry has an empty
spell set — yet `transmute_from_content` succeeds instead of failing
with `InvalidInput`. -/
theorem invalid_input_counterexample :
    transmute_from_content noSpellOracle cssEmptyBody toksEmptyBody
      = .ok [("a", ∅)]
    ∧ List.all [("a", (∅ : Finset String))] (fun e => e.2 == ∅) = true := by
  exact ⟨rfl, by decide⟩

/-- C4 (amended): `transmute_from_content` fails with `InvalidInput`
exactly when the merged map is empty — a map containing only
declaration-less or empty-named entries does **not** trigger the error —
and on failure no partial output is produced: the result is either the
full assembled map (the entries with non-empty names) or an error. -/
theorem invalid_input_amended :
    (∀ (oracle : String → Bool) (css : String) (toks : Toks),
      transmute_from_content oracle css toks
          = .error (.invalidInput "There is nothing to transmute.")
        ↔ (process_css_into_raw_spells oracle css toks initParserState).1
            = [])
    ∧ (∀ (oracle : String → Bool) (css : String) (toks : Toks) out,
        transmute_from_content oracle css toks = .ok out →
        out = ((process_css_into_raw_spells oracle css toks
          initParserState).1.filter (fun p => ¬ p.1 = "")))
    ∧ (∀ (oracle : String → Bool) (css : String) (toks : Toks) e out,
        transmute_from_content oracle css toks = .error e →
        transmute_from_content oracle css toks ≠ .ok out) := by
  refine ⟨?_, ?_, ?_⟩
  · intro oracle css toks
    simp only [transmute_from_content]
    by_cases hp :
        (process_css_into_raw_spells oracle css toks initParserState).1 = []
    · simp [hp]
    · simp [hp, List.isEmpty_iff]
  · intro oracle css toks out hok
    revert hok
    simp only [transmute_from_content]
    by_cases hp :
        (process_css_into_raw_spells oracle css toks initParserState).1 = []
    · simp [hp]
    · simp [hp, List.isEmpty_iff]
      intro hok
      exact hok.symm
  · intro oracle css toks e out he hok
    rw [he] at hok
    exact absurd hok (by simp)

/-- Witness for the amended C4: a selector without a rule body produces
an empty map, so the run fails with `InvalidInput`. -/
theorem invalid_input_amended_witness :
    transmute_from_content noSpellOracle cssNoBody toksNoBody
      = .error (.invalidInput "There is nothing to transmute.") :=
  (invalid_input_amended.1 noSpellOracle cssNoBody toksNoBody).mpr (by decide)

end GrimoireTransmute
